import Mathlib

/-!
Verification of the `den` CLI's command-resolution, aliasing and layered
configuration layer, as a shallow embedding of the Python source.

Sources embedded:
- `src/den/config.py` (`Config.__init__`, `Config.get`) on top of the standard
  `configparser.ConfigParser` merge semantics (reading several files into one
  parser; a later `read` overwrites earlier values for the same section/option;
  option names are normalised with `optionxform`, i.e. `str.lower`).
- `src/den/click_ext.py` (`find_unique_short`, `SmartGroup.get_command`).
- `src/den/commands/alias.py` (`find`, `AliasGroup.resolve_command`).
- `src/den/commands/config.py` (`_expand`, `_modify_config`, `set_value`,
  `delete`).
- The `click` framework pieces the source calls into (`Group.get_command` as
  exact registered-name lookup, `Group.resolve_command`, `Context.fail`) are
  modelled from the spec's description of the command registry: exact name
  match, and a "no such command" usage error naming the attempted token when
  the (dynamically dispatched) `get_command` returns nothing.  Both usage
  errors raised on this path are `ClickException`s, which is what
  `AliasGroup.resolve_command` catches.

Python strings are Lean `String`s; the string primitives the source uses
(`str.split` with a single-character separator, `str.split(sep, 1)`,
`str.startswith`, `in`, `str.lower`) are re-implemented structurally over
`String.data` so that concrete runs evaluate in the kernel.

On-disk INI files are modelled post-parse, as ordered sections each holding an
ordered key/value dict (`configparser`'s internal state).  Option keys on disk
are therefore already `optionxform`-normalised; values are carried verbatim
(interpolation and text-level serialisation are not modelled).
-/

namespace Den

/-- Python `s.split(c)` for a one-character separator, over `List Char`:
returns the (possibly empty) chunks between occurrences of `c`. -/
def splitCharAux (c : Char) : List Char → List (List Char)
  | [] => [[]]
  | x :: xs =>
    let r := splitCharAux c xs
    if x == c then [] :: r
    else
      match r with
      | [] => [[x]]
      | y :: ys => (x :: y) :: ys

/-- Python `s.split(c)` for a one-character separator `c`. -/
def strSplitChar (c : Char) (s : String) : List String :=
  (splitCharAux c s.data).map (fun l => ⟨l⟩)

/-- Python `c in s` for a single character. -/
def strContains (s : String) (c : Char) : Bool :=
  s.data.any (fun x => x == c)

/-- Python `s.startswith(t)`. -/
def startsWith (s t : String) : Bool :=
  t.data.isPrefixOf s.data

/-- `configparser`'s default `optionxform`, i.e. Python `str.lower`. -/
def optionxform (s : String) : String :=
  ⟨s.data.map Char.toLower⟩

/-- Rejoin chunks with `"."`, to express Python `s.split(".", 1)` via
`strSplitChar`. -/
def strJoinDot : List String → String
  | [] => ""
  | [x] => x
  | x :: xs => x ++ "." ++ strJoinDot xs

/-- Python `s.split(".", 1)`: the text before the first `.` and everything
after it (the whole string and `""` when `s` has no dot, which the caller in
`_expand` rules out). -/
def splitFirstDot (s : String) : String × String :=
  match strSplitChar '.' s with
  | [] => (s, "")
  | [x] => (x, "")
  | x :: rest => (x, strJoinDot rest)

/-- `configparser.ConfigParser` state: ordered sections, each an ordered
key/value dict.  Stored option keys are `optionxform`-normalised. -/
abbrev IniData := List (String × List (String × String))

/-- Dict lookup inside one section (first — in a dict, only — occurrence). -/
def lookupKV : List (String × String) → String → Option String
  | [], _ => none
  | kv :: rest, k => if kv.1 == k then some kv.2 else lookupKV rest k

/-- Dict assignment `sectdict[k] = v`: replace in place, or append. -/
def setKV : List (String × String) → String → String → List (String × String)
  | [], k, v => [(k, v)]
  | kv :: rest, k, v => if kv.1 == k then (k, v) :: rest else kv :: setKV rest k v

/-- Dict removal `del sectdict[k]` (no-op when the key is absent, matching
`remove_option` returning `False`). -/
def removeKV : List (String × String) → String → List (String × String)
  | [], _ => []
  | kv :: rest, k => if kv.1 == k then rest else kv :: removeKV rest k

/-- Parser-level option lookup; `none` covers both `NoSectionError` and
`NoOptionError` (the query key is expected already normalised). -/
def getOptionCore : IniData → String → String → Option String
  | [], _, _ => none
  | s :: rest, sec, k => if s.1 == sec then lookupKV s.2 k else getOptionCore rest sec k

/-- Parser-level option write `parser[sec][k] = v`, creating the section at
the end when absent (the query key is expected already normalised). -/
def setOptionCore : IniData → String → String → String → IniData
  | [], sec, k, v => [(sec, [(k, v)])]
  | s :: rest, sec, k, v =>
    if s.1 == sec then (s.1, setKV s.2 k v) :: rest
    else s :: setOptionCore rest sec k v

/-- `parser.has_section(sec)`. -/
def has_section (st : IniData) (sec : String) : Bool :=
  st.any (fun s => s.1 == sec)

/-- `parser.add_section(sec)` (caller guards against duplicates). -/
def add_section (st : IniData) (sec : String) : IniData :=
  st ++ [(sec, [])]

/-- `parser.remove_section(sec)`: delete the section when present, no error
otherwise. -/
def removeSectionCore : IniData → String → IniData
  | [], _ => []
  | s :: rest, sec => if s.1 == sec then rest else s :: removeSectionCore rest sec

/-- `parser.read(f)` merging one already-parsed file into the parser state:
every `(key, value)` of every section of the file is assigned in order, so a
value read later overwrites one read earlier. -/
def mergeSection (st : IniData) (sec : String) (kvs : List (String × String)) : IniData :=
  kvs.foldl (fun acc kv => setOptionCore acc sec kv.1 kv.2) st

/-- One `parser.read(f)` call for a whole parsed file. -/
def readMerge (st : IniData) (file : IniData) : IniData :=
  file.foldl (fun acc s => mergeSection acc s.1 s.2) st

/-- `Config.__init__(*files)` from `src/den/config.py`: one shared parser reads
each file in order; a missing file (`none`) is silently skipped.  Path
resolution (`base_dir`, `expanduser`, `os.path.exists`) is abstracted into
whether each file is present. -/
def configLoad (files : List (Option IniData)) : IniData :=
  files.foldl (fun acc f => match f with | none => acc | some d => readMerge acc d) []

/-- `Config.get(section, key, default)` from `src/den/config.py`: parser
lookup (which normalises the option name), returning `default` on either
`NoSectionError` or `NoOptionError`. -/
def config_get (st : IniData) (sec key : String) (default : Option String) : Option String :=
  match getOptionCore st sec (optionxform key) with
  | some v => some v
  | none => default

/-- Result of `_expand` from `src/den/commands/config.py`: a section/key pair,
or the `click.BadParameter` error ("You need to specify a section and a
key"). -/
inductive ExpandResult where
  | ok (sec : String) (key : Option String)
  | badParameter
deriving DecidableEq

/-- Python truthiness test `not key` for the optional key argument. -/
def keyFalsy : Option String → Bool
  | none => true
  | some s => s == ""

/-- `_expand(section, key, key_required)` from `src/den/commands/config.py`. -/
def expand (sec : String) (key : Option String) (key_required : Bool) : ExpandResult :=
  if keyFalsy key && !(strContains sec '.') then
    if key_required then .badParameter else .ok sec none
  else if keyFalsy key then
    let p := splitFirstDot sec
    .ok p.1 (some p.2)
  else .ok sec key

/-- Exceptions escaping a `_modify_config` body on the `delete` path:
`configparser.NoSectionError` raised by `parser.remove_option`. -/
inductive ConfigError where
  | noSection (sec : String)
deriving DecidableEq

/-- `parser.remove_option(sec, key)`: `NoSectionError` when the section is
absent, otherwise remove the (normalised) key if present. -/
def remove_option (st : IniData) (sec key : String) : Except ConfigError IniData :=
  if has_section st sec then
    .ok (st.map (fun s => if s.1 == sec then (s.1, removeKV s.2 (optionxform key)) else s))
  else .error (.noSection sec)

/-- `_modify_config(config_file)` from `src/den/commands/config.py`: a fresh
parser reads the single target file (missing file: empty parser), the body
mutates it, and only on normal completion is the file rewritten from the
parser — the write statement sits after the `yield`, so an exception thrown
into the generator skips it and leaves the file as it was.  Returns the
resulting on-disk contents and the propagated exception, if any. -/
def modify_config (file : Option IniData) (body : IniData → Except ConfigError IniData) :
    Option IniData × Option ConfigError :=
  match body (file.getD []) with
  | .ok parser2 => (some parser2, none)
  | .error e => (file, some e)

/-- `set_value` from `src/den/commands/config.py`, after `_expand` has
produced the section and key: inside `_modify_config`, add the section when
absent, then `parser.set(section, key, value)` (which normalises the key). -/
def set_value (file : Option IniData) (sec key value : String) :
    Option IniData × Option ConfigError :=
  modify_config file (fun parser =>
    let parser := if has_section parser sec then parser else add_section parser sec
    .ok (setOptionCore parser sec (optionxform key) value))

/-- `delete` from `src/den/commands/config.py`: the target address comes from
`_expand(section, key, key_required=False)`; with a key, the body runs
`parser.remove_option`, otherwise `parser.remove_section`.  The interactive
whole-section confirmation prompt is not modelled (the claims only exercise
the keyed path).  The `badParameter` branch is unreachable because
`key_required` is `false`. -/
def delete (file : Option IniData) (sec : String) (key : Option String) :
    Option IniData × Option ConfigError :=
  match expand sec key false with
  | .badParameter => (file, none)
  | .ok s k =>
    modify_config file (fun parser =>
      match k with
      | some kk => remove_option parser s kk
      | none => .ok (removeSectionCore parser s))

/-- The two `ClickException`s raised on the resolution path: the
"No such command" usage error from `click.Group.resolve_command`, and the
"is ambiguous and matched multiple commands" usage error from
`SmartGroup.get_command`'s `ctx.fail` (with its candidate list). -/
inductive ResolveError where
  | noSuchCommand (name : String)
  | ambiguous (name : String) (candidates : List String)
deriving DecidableEq

/-- Outcome of `resolve_command`: the `(cmd_name, command, remaining_args)`
tuple, or a raised `ClickException`.  Command handlers are identified by
their registered name. -/
inductive ResolveResult where
  | ok (cmd_name : String) (command : String) (args : List String)
  | err (e : ResolveError)
deriving DecidableEq

/-- Outcome of `SmartGroup.get_command`: a command, `None`, or the ambiguity
failure raised through `ctx.fail`. -/
inductive GetCommandResult where
  | found (command : String)
  | missing
  | failed (e : ResolveError)
deriving DecidableEq

/-- `click.Group.get_command`: exact lookup among the registered command
names (modelled from the spec's command-registry contract). -/
def group_get_command (group : List String) (name : String) : Option String :=
  if group.contains name then some name else none

/-- `find_unique_short` from `src/den/click_ext.py`: filter the registered
names down to those starting with `command_name`; a unique candidate is
resolved through the group's exact lookup (it is registered, so that lookup
yields it), several candidates are returned as the option list, none is a
miss. -/
def find_unique_short (group : List String) (command_name : String) :
    Option (Sum String (List String)) :=
  match group.filter (fun command => startsWith command command_name) with
  | [c] => some (Sum.inl c)
  | [] => none
  | cs => some (Sum.inr cs)

/-- `SmartGroup.get_command` from `src/den/click_ext.py`: exact lookup first;
otherwise a unique shorthand wins, an ambiguous shorthand fails via
`ctx.fail` with the candidate list, and a complete miss returns `None`. -/
def smart_get_command (group : List String) (cmd_name : String) : GetCommandResult :=
  match group_get_command group cmd_name with
  | some command => .found command
  | none =>
    match find_unique_short group cmd_name with
    | some (Sum.inr cs) => .failed (.ambiguous cmd_name cs)
    | some (Sum.inl c) => .found c
    | none => .missing

/-- `click.Group.resolve_command(self, ctx, args)` as invoked by the source:
the framework's resolver calling the dynamically dispatched
`SmartGroup.get_command`, failing with the "No such command" usage error
naming the attempted token when that returns `None` (modelled from the
spec's description of the framework resolver). -/
def base_resolve_command (group : List String) (args : List String) : ResolveResult :=
  match args with
  | [] => .err (.noSuchCommand "")
  | cmd_name :: rest =>
    match smart_get_command group cmd_name with
    | .failed e => .err e
    | .missing => .err (.noSuchCommand cmd_name)
    | .found command => .ok cmd_name command rest

/-- `find(context, alias)` from `src/den/commands/alias.py`: look the alias up
in the merged config under the `"alias"` section and split the expansion on
single spaces; an undefined or empty expansion is `None`. -/
def find (config : IniData) (alias_name : String) : Option (List String) :=
  match config_get config "alias" alias_name none with
  | none => none
  | some expansion => if expansion == "" then none else some (strSplitChar ' ' expansion)

/-- `AliasGroup.resolve_command` from `src/den/commands/alias.py`: try the
base resolution; on any `ClickException` (not-found or ambiguous alike) look
up an alias for `args[0]`, re-raising the original error when none is
defined, and otherwise re-resolving `alias + args[1:]` through
`click.Group.resolve_command` (the base resolver — not through this method
again, so no further alias lookup happens for the expanded head). -/
def alias_resolve_command (group : List String) (config : IniData) (args : List String) :
    ResolveResult :=
  match base_resolve_command group args with
  | .ok n c r => .ok n c r
  | .err e =>
    match find config (args.headD "") with
    | none => .err e
    | some exp => base_resolve_command group (exp ++ args.tail)

/-- Well-formedness of parser state, as `configparser` maintains it (and as
`strict` parsing enforces for files): section names are distinct, and keys
inside each section are distinct. -/
def WF (st : IniData) : Prop :=
  (st.map Prod.fst).Nodup ∧ ∀ s ∈ st, (s.2.map Prod.fst).Nodup

instance (st : IniData) : Decidable (WF st) := by
  unfold WF; infer_instance

/-- First-defined-wins choice between two optional values. -/
def orElseO (x y : Option String) : Option String :=
  match x with
  | some v => some v
  | none => y

theorem orElseO_none (x : Option String) : orElseO x none = x := by
  cases x <;> rfl


theorem mergeSection_cons (st : IniData) (sec : String) (kv : String × String)
    (rest : List (String × String)) :
    mergeSection st sec (kv :: rest) = mergeSection (setOptionCore st sec kv.1 kv.2) sec rest :=
  rfl

theorem readMerge_cons (st : IniData) (s : String × List (String × String)) (rest : IniData) :
    readMerge st (s :: rest) = readMerge (mergeSection st s.1 s.2) rest :=
  rfl

theorem lookupKV_setKV (kvs : List (String × String)) (k v q : String) :
    lookupKV (setKV kvs k v) q = if q = k then some v else lookupKV kvs q := by
  induction kvs with
  | nil =>
    by_cases hq : q = k
    · simp [setKV, lookupKV, hq]
    · have hk : ¬k = q := fun hc => hq hc.symm
      simp [setKV, lookupKV, hk, hq]
  | cons kv rest ih =>
    by_cases h : kv.1 = k
    · by_cases hq : q = k
      · simp [setKV, lookupKV, h, hq]
      · have hk : ¬k = q := fun hc => hq hc.symm
        have hkv : ¬kv.1 = q := fun hc => hq (hc.symm.trans h)
        simp [setKV, lookupKV, h, hk, hq, hkv]
    · by_cases hq : q = kv.1
      · have hqk : ¬q = k := fun hc => h (hq ▸ hc)
        simp [setKV, lookupKV, h, hq.symm, hqk]
      · have hkv : ¬kv.1 = q := fun hc => hq hc.symm
        simp [setKV, lookupKV, h, hkv, ih]

theorem getOption_setOption (st : IniData) (sec k v sec' q : String) :
    getOptionCore (setOptionCore st sec k v) sec' q =
      if sec' = sec ∧ q = k then some v else getOptionCore st sec' q := by
  induction st with
  | nil =>
    by_cases hs : sec' = sec
    · by_cases hq : q = k
      · simp [setOptionCore, getOptionCore, lookupKV, hs, hq]
      · have hk : ¬k = q := fun hc => hq hc.symm
        simp [setOptionCore, getOptionCore, lookupKV, hs, hq, hk]
    · have hss : ¬sec = sec' := fun hc => hs hc.symm
      simp [setOptionCore, getOptionCore, hs, hss]
  | cons s rest ih =>
    by_cases h : s.1 = sec
    · by_cases hs : sec' = sec
      · have hs1 : s.1 = sec' := h.trans hs.symm
        simp [setOptionCore, getOptionCore, h, hs1, lookupKV_setKV, hs]
      · have hs1 : ¬s.1 = sec' := fun hc => hs (hc.symm.trans h)
        have hss : ¬sec = sec' := fun hc => hs hc.symm
        simp [setOptionCore, getOptionCore, h, hs1, hs, hss]
    · by_cases hq : sec' = s.1
      · have hss : ¬sec' = sec := fun hc => h (hq.symm.trans hc)
        simp [setOptionCore, getOptionCore, h, hq.symm, hss]
      · have hs1 : ¬s.1 = sec' := fun hc => hq hc.symm
        simp [setOptionCore, getOptionCore, h, hs1, hq, ih]

theorem lookupKV_eq_none (kvs : List (String × String)) (q : String)
    (h : q ∉ kvs.map Prod.fst) : lookupKV kvs q = none := by
  induction kvs with
  | nil => rfl
  | cons kv rest ih =>
    simp only [List.map_cons, List.mem_cons] at h
    push_neg at h
    have hkv : ¬kv.1 = q := fun hc => h.1 hc.symm
    simp [lookupKV, hkv, ih h.2]

theorem getOption_eq_none (st : IniData) (sec q : String)
    (h : sec ∉ st.map Prod.fst) : getOptionCore st sec q = none := by
  induction st with
  | nil => rfl
  | cons s rest ih =>
    simp only [List.map_cons, List.mem_cons] at h
    push_neg at h
    have hs : ¬s.1 = sec := fun hc => h.1 hc.symm
    simp [getOptionCore, hs, ih h.2]

theorem getOption_mergeSection_ne (kvs : List (String × String)) (st : IniData)
    (sec sec' q : String) (h : sec' ≠ sec) :
    getOptionCore (mergeSection st sec kvs) sec' q = getOptionCore st sec' q := by
  induction kvs generalizing st with
  | nil => rfl
  | cons kv rest ih =>
    rw [mergeSection_cons, ih]
    simp [getOption_setOption, h]

theorem getOption_mergeSection (kvs : List (String × String)) (st : IniData)
    (sec q : String) (hnd : (kvs.map Prod.fst).Nodup) :
    getOptionCore (mergeSection st sec kvs) sec q =
      orElseO (lookupKV kvs q) (getOptionCore st sec q) := by
  induction kvs generalizing st with
  | nil => rfl
  | cons kv rest ih =>
    simp only [List.map_cons, List.nodup_cons] at hnd
    rw [mergeSection_cons, ih _ hnd.2]
    by_cases hq : q = kv.1
    · have hrest : lookupKV rest kv.1 = none := lookupKV_eq_none rest kv.1 hnd.1
      simp [lookupKV, hq, hrest, getOption_setOption, orElseO]
    · have hkv : ¬kv.1 = q := fun hc => hq hc.symm
      simp [lookupKV, hkv, getOption_setOption, hq]

theorem WF_cons {s : String × List (String × String)} {rest : IniData}
    (h : WF (s :: rest)) : WF rest := by
  obtain ⟨h1, h2⟩ := h
  simp only [List.map_cons, List.nodup_cons] at h1
  exact ⟨h1.2, fun x hx => h2 x (List.mem_cons_of_mem _ hx)⟩

theorem getOption_readMerge (b : IniData) (st : IniData) (sec q : String) (hb : WF b) :
    getOptionCore (readMerge st b) sec q =
      orElseO (getOptionCore b sec q) (getOptionCore st sec q) := by
  induction b generalizing st with
  | nil => rfl
  | cons s rest ih =>
    rw [readMerge_cons, ih _ (WF_cons hb)]
    by_cases hs : sec = s.1
    · have hnotin : s.1 ∉ rest.map Prod.fst := by
        have h1 := hb.1
        simp only [List.map_cons, List.nodup_cons] at h1
        exact h1.1
      have hrest : getOptionCore rest sec q = none :=
        getOption_eq_none rest sec q (hs ▸ hnotin)
      have hkvs : (s.2.map Prod.fst).Nodup := hb.2 s (List.mem_cons_self _ _)
      rw [hrest, hs, getOption_mergeSection s.2 st s.1 q hkvs]
      simp [getOptionCore, orElseO]
    · have hs1 : ¬s.1 = sec := fun hc => hs hc.symm
      rw [getOption_mergeSection_ne s.2 st s.1 sec q hs]
      simp [getOptionCore, hs1]

theorem mem_setKV_keys (kvs : List (String × String)) (k v x : String) :
    x ∈ (setKV kvs k v).map Prod.fst ↔ x ∈ kvs.map Prod.fst ∨ x = k := by
  induction kvs with
  | nil => simp [setKV]
  | cons kv rest ih =>
    by_cases h : kv.1 = k
    · simp [setKV, h]
      tauto
    · simp [setKV, h, ih]
      tauto

theorem nodup_setKV (kvs : List (String × String)) (k v : String)
    (h : (kvs.map Prod.fst).Nodup) : ((setKV kvs k v).map Prod.fst).Nodup := by
  induction kvs with
  | nil => simp [setKV]
  | cons kv rest ih =>
    simp only [List.map_cons, List.nodup_cons] at h
    by_cases hk : kv.1 = k
    · simp only [setKV, hk, beq_self_eq_true, if_true, List.map_cons, List.nodup_cons]
      exact ⟨hk ▸ h.1, h.2⟩
    · have hkb : (kv.1 == k) = false := by simp [hk]
      simp only [setKV, hkb, Bool.false_eq_true, if_false, List.map_cons, List.nodup_cons]
      refine ⟨?_, ih h.2⟩
      rw [mem_setKV_keys]
      rintro (hc | hc)
      · exact h.1 hc
      · exact hk hc

theorem mem_setOption_names (st : IniData) (sec k v x : String) :
    x ∈ (setOptionCore st sec k v).map Prod.fst ↔ x ∈ st.map Prod.fst ∨ x = sec := by
  induction st with
  | nil => simp [setOptionCore]
  | cons s rest ih =>
    by_cases h : s.1 = sec
    · simp [setOptionCore, h]
      tauto
    · simp [setOptionCore, h, ih]
      tauto

theorem WF_setOption (st : IniData) (sec k v : String) (h : WF st) :
    WF (setOptionCore st sec k v) := by
  induction st with
  | nil =>
    refine ⟨by simp [setOptionCore], ?_⟩
    intro s hs
    simp only [setOptionCore, List.mem_singleton] at hs
    subst hs
    simp
  | cons s rest ih =>
    have h1 : s.1 ∉ rest.map Prod.fst := by
      have := h.1
      simp only [List.map_cons, List.nodup_cons] at this
      exact this.1
    have h1' : (rest.map Prod.fst).Nodup := by
      have := h.1
      simp only [List.map_cons, List.nodup_cons] at this
      exact this.2
    have hrest : WF rest := WF_cons h
    by_cases hs : s.1 = sec
    · have hsb : (s.1 == sec) = true := by simp [hs]
      simp only [setOptionCore, hsb, if_true]
      constructor
      · simp only [List.map_cons, List.nodup_cons]
        exact ⟨h1, h1'⟩
      · intro t ht
        rcases List.mem_cons.mp ht with rfl | ht
        · exact nodup_setKV _ _ _ (h.2 s (List.mem_cons_self _ _))
        · exact hrest.2 t ht
    · have hsb : (s.1 == sec) = false := by simp [hs]
      simp only [setOptionCore, hsb, Bool.false_eq_true, if_false]
      have ihr := ih hrest
      constructor
      · simp only [List.map_cons, List.nodup_cons]
        refine ⟨?_, ihr.1⟩
        rw [mem_setOption_names]
        rintro (hc | hc)
        · exact h1 hc
        · exact hs hc
      · intro t ht
        rcases List.mem_cons.mp ht with rfl | ht
        · exact h.2 t (List.mem_cons_self _ _)
        · exact ihr.2 t ht

theorem has_section_false_iff (st : IniData) (sec : String) :
    has_section st sec = false ↔ sec ∉ st.map Prod.fst := by
  simp only [has_section, List.any_eq_false, beq_iff_eq, List.mem_map, not_exists, not_and]

theorem WF_add_section (st : IniData) (sec : String) (hns : has_section st sec = false)
    (h : WF st) : WF (add_section st sec) := by
  obtain ⟨h1, h2⟩ := h
  constructor
  · simp only [add_section, List.map_append, List.map_cons, List.map_nil]
    rw [List.nodup_append]
    refine ⟨h1, List.nodup_singleton _, ?_⟩
    intro x hx hy
    rcases List.mem_singleton.mp hy with rfl
    exact (has_section_false_iff st x).mp hns hx
  · intro s hs
    rcases List.mem_append.mp hs with hs | hs
    · exact h2 s hs
    · rcases List.mem_singleton.mp hs with rfl
      simp

theorem config_get_none_eq (st : IniData) (sec key : String) :
    config_get st sec key none = getOptionCore st sec (optionxform key) := by
  unfold config_get
  cases getOptionCore st sec (optionxform key) <;> rfl

theorem group_get_command_of_mem {group : List String} {t : String} (h : t ∈ group) :
    group_get_command group t = some t := by
  simp [group_get_command, h]

theorem group_get_command_of_not_mem {group : List String} {t : String} (h : t ∉ group) :
    group_get_command group t = none := by
  simp [group_get_command, h]

theorem base_resolve_not_found {group : List String} {t : String} (rest : List String)
    (hnm : t ∉ group)
    (hpre : group.filter (fun command => startsWith command t) = []) :
    base_resolve_command group (t :: rest) = .err (.noSuchCommand t) := by
  simp [base_resolve_command, smart_get_command, group_get_command_of_not_mem hnm,
    find_unique_short, hpre]

/-- C1 (counterexample): with a local file defining `[x] y=1` and a user file
defining `[x] y=2`, loaded in the order local-then-user, the merged
`get("x","y")` returns `"2"` — the value from the LATER source — and not the
claimed `"1"`: `ConfigParser.read` overwrites, so the claimed
first-match-wins lookup does not hold. -/
theorem c1_counterexample :
    config_get (configLoad [some [("x", [("y", "1")])], some [("x", [("y", "2")])]])
      "x" "y" none = some "2" ∧
    config_get (configLoad [some [("x", [("y", "1")])], some [("x", [("y", "2")])]])
      "x" "y" none ≠ some "1" :=
  ⟨by decide, by decide⟩

/-- C1 (amended): for every (section, key) defined in more than one loaded
configuration source, the merged lookup returns the value from the LATER
source in the load order (last-match-wins): whenever the later file defines
the addressed option, the merged `get` returns that later value, whatever
the earlier file holds; in particular with local `[x] y=1` and user
`[x] y=2` loaded local-then-user, `get("x","y")` returns `"2"`, and if the
local file lacks section `x` entirely the user file's value is returned. -/
theorem c1_later_source_wins (localFile userFile : IniData) (sec key v : String)
    (hWF : WF userFile) (hdef : config_get userFile sec key none = some v) :
    config_get (configLoad [some localFile, some userFile]) sec key none = some v := by
  rw [config_get_none_eq] at hdef
  have hload : configLoad [some localFile, some userFile]
      = readMerge (readMerge [] localFile) userFile := rfl
  rw [hload, config_get_none_eq,
    getOption_readMerge userFile _ sec (optionxform key) hWF, hdef]
  rfl

/-- C1 (witness): the amended theorem applied to the local/user pair of the
spec's own scenario. -/
theorem c1_witness :
    WF [("x", [("y", "2")])] ∧
    config_get (configLoad [some [("x", [("y", "1")])], some [("x", [("y", "2")])]])
      "x" "y" none = some "2" :=
  ⟨by decide,
    c1_later_source_wins [("x", [("y", "1")])] [("x", [("y", "2")])] "x" "y" "2"
      (by decide) (by decide)⟩

/-- C2 (counterexample): with commands `{start, stop, version}` registered and
an alias `st = version` defined, the input token `st` (a prefix of both
`start` and `stop`) does NOT fail with the ambiguity error: the
`except click.ClickException` in `AliasGroup.resolve_command` also catches
the ambiguity failure, and the alias silently resolves to `version`. -/
theorem c2_counterexample :
    alias_resolve_command ["start", "stop", "version"]
      [("alias", [("st", "version")])] ["st"] = .ok "version" "version" [] ∧
    alias_resolve_command ["start", "stop", "version"]
      [("alias", [("st", "version")])] ["st"]
      ≠ .err (.ambiguous "st" ["start", "stop"]) :=
  ⟨by decide, by decide⟩

/-- C2 (amended): for every input token `t` that is not an exact registered
command name and for which two or more registered command names start with
`t`, command resolution fails with the ambiguous-command error listing
exactly those candidates PROVIDED no alias named `t` is defined; when an
alias named `t` exists, the caught ambiguity failure falls through to alias
resolution instead of being reported. -/
theorem c2_ambiguous_reported (group : List String) (config : IniData) (t : String)
    (rest : List String) (hnm : t ∉ group)
    (hlen : 2 ≤ (group.filter (fun command => startsWith command t)).length)
    (hal : find config t = none) :
    alias_resolve_command group config (t :: rest)
      = .err (.ambiguous t (group.filter (fun command => startsWith command t))) := by
  cases hf : group.filter (fun command => startsWith command t) with
  | nil =>
    rw [hf] at hlen
    simp at hlen
  | cons a tl =>
    cases tl with
    | nil =>
      rw [hf] at hlen
      simp at hlen
    | cons b tl2 =>
      simp [alias_resolve_command, base_resolve_command, smart_get_command,
        group_get_command_of_not_mem hnm, find_unique_short, hf, hal]

/-- C2 (witness): commands `{start, stop}`, no alias: `st` fails ambiguous,
naming both candidates. -/
theorem c2_witness :
    "st" ∉ ["start", "stop"] ∧
    alias_resolve_command ["start", "stop"] [] ["st"]
      = .err (.ambiguous "st" ["start", "stop"]) :=
  ⟨by decide,
    (c2_ambiguous_reported ["start", "stop"] [] "st" [] (by decide) (by decide)
      (by decide)).trans (by decide)⟩

/-- C3 (counterexample): with command `create` registered and aliases
`a = b`, `b = create` defined, input `a` does NOT resolve through the second
alias: the re-resolution of the expansion goes through
`click.Group.resolve_command` (exact/prefix only), so it fails with the
not-found error for `b`; likewise a self-referential alias `x = x` fails
after a single expansion instead of recursing. -/
theorem c3_counterexample :
    alias_resolve_command ["create"] [("alias", [("a", "b"), ("b", "create")])] ["a"]
      = .err (.noSuchCommand "b") ∧
    alias_resolve_command ["create"] [("alias", [("a", "b"), ("b", "create")])] ["a"]
      ≠ .ok "create" "create" [] ∧
    alias_resolve_command ["create"] [("alias", [("x", "x")])] ["x"]
      = .err (.noSuchCommand "x") :=
  ⟨by decide, by decide, by decide⟩

/-- C3 (amended): when an alias expansion's head token is itself neither a
registered command nor an unambiguous prefix, the re-resolution of the
expanded argument vector uses only the base group resolution and performs NO
further alias lookup: even when the head token is the name of another
defined alias, resolution fails with the not-found error naming the expanded
head; chained, self-referential and cyclic alias definitions therefore fail
after a single expansion rather than recursing. -/
theorem c3_no_chained_alias (group : List String) (config : IniData) (t hd : String)
    (exprest rest exp2 : List String)
    (hnm : t ∉ group)
    (hpre : group.filter (fun command => startsWith command t) = [])
    (hal : find config t = some (hd :: exprest))
    (hnm2 : hd ∉ group)
    (hpre2 : group.filter (fun command => startsWith command hd) = [])
    (_hal2 : find config hd = some exp2) :
    alias_resolve_command group config (t :: rest) = .err (.noSuchCommand hd) := by
  have hbase := base_resolve_not_found (t := t) rest hnm hpre
  have hbase2 := base_resolve_not_found (t := hd) (exprest ++ rest) hnm2 hpre2
  simp only [alias_resolve_command, hbase, List.headD_cons, hal, List.tail_cons,
    List.cons_append, hbase2]

/-- C3 (witness): the chained-alias scenario `a = b`, `b = create` with
`create` registered. -/
theorem c3_witness :
    find [("alias", [("a", "b"), ("b", "create")])] "b" = some ["create"] ∧
    alias_resolve_command ["create"] [("alias", [("a", "b"), ("b", "create")])] ["a"]
      = .err (.noSuchCommand "b") :=
  ⟨by decide,
    c3_no_chained_alias ["create"] [("alias", [("a", "b"), ("b", "create")])]
      "a" "b" [] [] ["create"] (by decide) (by decide) (by decide) (by decide)
      (by decide) (by decide)⟩

/-- C4: for every registered command set and input token `t` registered
exactly, command resolution returns that command immediately with the
remaining arguments unchanged — regardless of any alias named `t` in the
configuration and regardless of `t` also being a prefix of other registered
commands. -/
theorem c4_exact_match_wins (group : List String) (config : IniData) (t : String)
    (rest : List String) (h : t ∈ group) :
    alias_resolve_command group config (t :: rest) = .ok t t rest := by
  simp [alias_resolve_command, base_resolve_command, smart_get_command,
    group_get_command_of_mem h]

/-- C4 (witness): `start` is both registered, a prefix of `startle`, and
shadowed by an alias; the exact command still wins. -/
theorem c4_witness :
    "start" ∈ ["start", "startle"] ∧
    alias_resolve_command ["start", "startle"] [("alias", [("start", "version")])]
      ["start", "x"] = .ok "start" "start" ["x"] :=
  ⟨by decide,
    c4_exact_match_wins ["start", "startle"] [("alias", [("start", "version")])]
      "start" ["x"] (by decide)⟩

/-- C5: for every input token `t` that is not an exact registered command
name and for which exactly one registered command name `c` starts with `t`,
resolution returns `c` and forwards the remaining arguments unchanged,
without any error or confirmation. -/
theorem c5_unique_short_wins (group : List String) (config : IniData) (t c : String)
    (rest : List String) (hnm : t ∉ group)
    (hf : group.filter (fun command => startsWith command t) = [c]) :
    alias_resolve_command group config (t :: rest) = .ok t c rest := by
  simp [alias_resolve_command, base_resolve_command, smart_get_command,
    group_get_command_of_not_mem hnm, find_unique_short, hf]

/-- C5 (witness): the spec's scenario — commands `{create, config, alias}`,
input `conf get x y` resolves to `config` forwarding `["get","x","y"]`. -/
theorem c5_witness :
    (["create", "config", "alias"].filter
      (fun command => startsWith command "conf") = ["config"]) ∧
    alias_resolve_command ["create", "config", "alias"] [] ["conf", "get", "x", "y"]
      = .ok "conf" "config" ["get", "x", "y"] :=
  ⟨by decide,
    c5_unique_short_wins ["create", "config", "alias"] [] "conf" "config"
      ["get", "x", "y"] (by decide) (by decide)⟩

/-- C6: for every input token `t` with zero exact and zero prefix matches and
an alias `t` defined with (non-empty) value `v`, resolution re-resolves
using the argument vector obtained by splitting `v` on single spaces,
concatenated with the original trailing arguments. -/
theorem c6_alias_expansion (group : List String) (config : IniData) (t v : String)
    (rest : List String) (hnm : t ∉ group)
    (hpre : group.filter (fun command => startsWith command t) = [])
    (hv : config_get config "alias" t none = some v) (hne : v ≠ "") :
    alias_resolve_command group config (t :: rest)
      = base_resolve_command group (strSplitChar ' ' v ++ rest) := by
  have hfind : find config t = some (strSplitChar ' ' v) := by
    simp [find, hv, hne]
  have hbase := base_resolve_not_found (t := t) rest hnm hpre
  simp only [alias_resolve_command, hbase, List.headD_cons, hfind, List.tail_cons]

/-- C6 (witness): the spec's scenario — alias `crst = "create --start"`,
commands `{create, start}`, input `crst extra` resolves to `create` with
arguments `["--start","extra"]`. -/
theorem c6_witness :
    alias_resolve_command ["create", "start"] [("alias", [("crst", "create --start")])]
      ["crst", "extra"] = .ok "create" "create" ["--start", "extra"] :=
  (c6_alias_expansion ["create", "start"] [("alias", [("crst", "create --start")])]
    "crst" "create --start" ["extra"] (by decide) (by decide) (by decide)
    (by decide)).trans (by decide)

/-- C7: for every input token `t` with zero exact matches, zero prefix
matches, and no alias `t` defined, resolution fails by propagating the
original command-not-found error naming the originally attempted token `t`. -/
theorem c7_original_not_found (group : List String) (config : IniData) (t : String)
    (rest : List String) (hnm : t ∉ group)
    (hpre : group.filter (fun command => startsWith command t) = [])
    (hal : find config t = none) :
    alias_resolve_command group config (t :: rest) = .err (.noSuchCommand t) := by
  have hbase := base_resolve_not_found (t := t) rest hnm hpre
  simp only [alias_resolve_command, hbase, List.headD_cons, hal]

/-- C7 (witness): commands `{create, start}`, unknown token `zzz`, no alias. -/
theorem c7_witness :
    find ([] : IniData) "zzz" = none ∧
    alias_resolve_command ["create", "start"] [] ["zzz", "a"]
      = .err (.noSuchCommand "zzz") :=
  ⟨by decide,
    c7_original_not_found ["create", "start"] [] "zzz" ["a"] (by decide) (by decide)
      (by decide)⟩

/-- C8: the address expansion `_expand` satisfies the five cases of the
claim: `("a", some "b", required)` is returned unchanged with no dotted
parsing, `"a.b"` splits into `("a","b")`, `"a.b.c"` splits on the first dot
only into `("a","b.c")`, `("a", none, not-required)` yields `("a", none)`,
and `("a", none, required)` raises the parameter error. -/
theorem c8_expand_cases :
    expand "a" (some "b") true = .ok "a" (some "b") ∧
    expand "a.b" none true = .ok "a" (some "b") ∧
    expand "a.b.c" none true = .ok "a" (some "b.c") ∧
    expand "a" none false = .ok "a" none ∧
    expand "a" none true = .badParameter :=
  ⟨by decide, by decide, by decide, by decide, by decide⟩

/-- C9: for every target file state, section, key and value, performing
`set_value` against that single file (creating the section when absent) and
then freshly loading that same file yields the value back from `get`:
mutation round-trips through the file, and it targets precisely the one
file handed to `_modify_config`. -/
theorem c9_set_value_roundtrip (file : Option IniData) (sec key v : String)
    (hWF : WF (file.getD [])) :
    config_get (configLoad [(set_value file sec key v).1]) sec key none = some v := by
  have hfst : (set_value file sec key v).1
      = some (setOptionCore
          (if has_section (file.getD []) sec then file.getD []
           else add_section (file.getD []) sec) sec (optionxform key) v) := rfl
  have hWF1 : WF (if has_section (file.getD []) sec then file.getD []
      else add_section (file.getD []) sec) := by
    by_cases h : has_section (file.getD []) sec
    · simpa [h] using hWF
    · have hf : has_section (file.getD []) sec = false := by
        simpa using h
      simp only [hf, Bool.false_eq_true, if_false]
      exact WF_add_section _ sec hf hWF
  have hWF2 : WF (setOptionCore
      (if has_section (file.getD []) sec then file.getD []
       else add_section (file.getD []) sec) sec (optionxform key) v) :=
    WF_setOption _ _ _ _ hWF1
  rw [hfst]
  have hload : configLoad [some (setOptionCore
      (if has_section (file.getD []) sec then file.getD []
       else add_section (file.getD []) sec) sec (optionxform key) v)]
      = readMerge [] (setOptionCore
          (if has_section (file.getD []) sec then file.getD []
           else add_section (file.getD []) sec) sec (optionxform key) v) := rfl
  rw [hload, config_get_none_eq, getOption_readMerge _ _ _ _ hWF2,
    getOption_setOption]
  simp [orElseO]

/-- C9 (witness): the round-trip at a concrete file that already holds
another value for the key. -/
theorem c9_witness :
    WF ((some [("x", [("y", "1")])] : Option IniData).getD []) ∧
    config_get (configLoad [(set_value (some [("x", [("y", "1")])]) "x" "y" "v").1])
      "x" "y" none = some "v" :=
  ⟨by decide, c9_set_value_roundtrip (some [("x", [("y", "1")])]) "x" "y" "v" (by decide)⟩

/-- C10: when the mutation body inside the `_modify_config` context raises —
here, `delete` of a key addressed under a section absent from the target
file, where `parser.remove_option` raises `NoSectionError` — the target
file is never rewritten: the resulting on-disk contents are exactly the
original ones, and the error propagates. -/
theorem c10_error_leaves_file (file : Option IniData) (sec key : String)
    (hkey : key ≠ "") (hns : has_section (file.getD []) sec = false) :
    delete file sec (some key) = (file, some (ConfigError.noSection sec)) := by
  have hkf : keyFalsy (some key) = false := by
    simp [keyFalsy, hkey]
  simp [delete, expand, hkf, modify_config, remove_option, hns]

/-- C10 (witness): deleting `x.z` against a file holding only section `y`
leaves the file untouched and surfaces the missing-section error. -/
theorem c10_witness :
    has_section ((some [("y", [("k", "1")])] : Option IniData).getD []) "x" = false ∧
    delete (some [("y", [("k", "1")])]) "x" (some "z")
      = (some [("y", [("k", "1")])], some (ConfigError.noSection "x")) :=
  ⟨by decide,
    c10_error_leaves_file (some [("y", [("k", "1")])]) "x" "z" (by decide) (by decide)⟩

end Den
